/-
Verification of the RideOrNot weather-notification program
(`weather_logic.py`, `main.py`) against its natural-language specification.

The Python source is shallowly embedded: pure functions become Lean
functions over `List Char` / `String`, the `dict`-based slot map becomes an
association list with Python's insertion-order/overwrite semantics, numeric
weather values are rationals, and the fallible index `splitlines()[-1]`
(which raises `IndexError` on an empty list) returns an `Option`.
-/
import Mathlib

namespace RideOrNot

/-! ## Python string primitives

`str.strip()` (no argument) removes the characters for which
`str.isspace()` holds from both ends; `str.splitlines()` splits at the
Unicode line boundaries below, treating `"\r\n"` as a single boundary and
not reporting a final empty line; `str.rsplit("\n", 1)[0]` is everything
before the last `'\n'` (the whole string when there is none). -/

/-- The characters stripped by Python's `str.strip()`. -/
def pyWsChars : List Char :=
  [' ', '\t', '\n', '\x0b', '\x0c', '\r',
   '\x1c', '\x1d', '\x1e', '\x1f', '\x85', '\xa0',
   ' ', ' ', ' ', ' ', ' ', ' ', ' ',
   ' ', ' ', ' ', ' ', ' ',
   ' ', ' ', ' ', ' ', '　']

/-- The line-boundary characters of Python's `str.splitlines()`
(besides the two-character boundary `"\r\n"`). -/
def lineBChars : List Char :=
  ['\n', '\r', '\x0b', '\x0c', '\x1c', '\x1d', '\x1e', '\x85',
   ' ', ' ']

def isPyWs (c : Char) : Bool := pyWsChars.contains c

def isLineB (c : Char) : Bool := lineBChars.contains c

def lstrip (l : List Char) : List Char := l.dropWhile isPyWs

def rstrip (l : List Char) : List Char := (l.reverse.dropWhile isPyWs).reverse

def stripL (l : List Char) : List Char := rstrip (lstrip l)

/-- Python `s.strip()`. -/
def pyStrip (s : String) : String := String.mk (stripL s.toList)

/-- Normalise every line boundary to `'\n'`; the flag records whether the
previous character was `'\r'` (so that the `'\n'` of a `"\r\n"` pair is
dropped, making the pair a single boundary). -/
def normNlAux : Bool → List Char → List Char
  | _, [] => []
  | prevCr, c :: rest =>
    if c = '\n' then
      if prevCr then normNlAux false rest else '\n' :: normNlAux false rest
    else if c = '\r' then '\n' :: normNlAux true rest
    else if isLineB c then '\n' :: normNlAux false rest
    else c :: normNlAux false rest

/-- Split at `'\n'`; always returns at least one (possibly empty) segment. -/
def splitSegs : List Char → List (List Char)
  | [] => [[]]
  | c :: rest =>
    if c = '\n' then [] :: splitSegs rest
    else
      match splitSegs rest with
      | [] => [[c]]
      | l :: ls => (c :: l) :: ls

/-- Python `s.splitlines()` on a character list: normalise the boundaries,
split at `'\n'`, and drop the final segment when it is empty (Python
reports no empty last line for input ending in a boundary, and returns
`[]` on the empty string). -/
def pySplitlinesL (l : List Char) : List (List Char) :=
  let segs := splitSegs (normNlAux false l)
  if segs.getLast? = some [] then segs.dropLast else segs

/-- Python `s.splitlines()`. -/
def pySplitlines (s : String) : List String :=
  (pySplitlinesL s.toList).map (fun l => String.mk l)

/-- Python `s.rsplit("\n", 1)[0]`: everything before the last `'\n'`,
or the whole string when it contains none. -/
def rsplitNlHead (s : String) : String :=
  let r := s.toList.reverse
  if r.contains '\n' then
    String.mk (((r.dropWhile (fun c => c != '\n')).drop 1).reverse)
  else s

/-! ## Decision Extractor (`main`, weather_logic.py lines 202-212)

The subject strings are reproduced byte-for-byte from the source, whose
emoji were committed through a Mac-Roman round-trip: the "Yes" subject is
prefixed by U+F8FF ü è ç Ô ∏ è and the "No"/"Unclear" subjects by
U+201A ö U+2020 Ô ∏ è. -/

inductive Decision where
  | SAFE
  | NOT_SAFE
  | UNCLEAR
deriving DecidableEq

def safeSubject : String := "üèçÔ∏è Ride Today: Yes"

def notSafeSubject : String := "‚ö†Ô∏è Ride Today: No"

def unclearSubject : String := "‚ö†Ô∏è Ride Today: Unclear"

def unclearNote : String := "\n\n(Note: Ride safety could not be determined automatically.)"

/-- `main`'s decision extraction:
`decision_line = ai_message.strip().splitlines()[-1].strip()`, then an
exact comparison with `"[SAFE]"` / `"[NOT SAFE]"`; on a match the body is
`ai_message.rsplit("\n", 1)[0].strip()`, otherwise the caveat note is
appended to the unchanged message.  `none` models the `IndexError` raised
by `[-1]` when `splitlines()` returns the empty list. -/
def extractDecision (aiMessage : String) : Option (Decision × String × String) :=
  match (pySplitlines (pyStrip aiMessage)).getLast? with
  | none => none
  | some lastLine =>
    let decisionLine := pyStrip lastLine
    if decisionLine = "[SAFE]" then
      some (Decision.SAFE, safeSubject, pyStrip (rsplitNlHead aiMessage))
    else if decisionLine = "[NOT SAFE]" then
      some (Decision.NOT_SAFE, notSafeSubject, pyStrip (rsplitNlHead aiMessage))
    else
      some (Decision.UNCLEAR, unclearSubject, aiMessage ++ unclearNote)

/-- The trimmed final line `main` compares against the two tags, when the
(stripped) message has any line at all. -/
def decisionLineOf (aiMessage : String) : Option String :=
  ((pySplitlines (pyStrip aiMessage)).getLast?).map pyStrip

/-! ## Data model and configuration constants (weather_logic.py lines 10-20) -/

/-- One OpenWeatherMap forecast block, restricted to the fields the program
reads: `dt_txt`, `weather[...]["description"]`, `main["temp"]`,
`wind["speed"]`, the optional `visibility`, and the optional `rain["3h"]`.
Numeric JSON values are embedded as rationals. -/
structure RawForecastEntry where
  dt_txt : String
  weather : List String
  main_temp : ℚ
  wind_speed : ℚ
  visibility? : Option ℚ
  rain3h? : Option ℚ
deriving DecidableEq

/-- The per-slot record produced by `simplify_forecast`. -/
structure SummaryRecord where
  description : String
  temp : ℚ
  wind : ℚ
  visibility : ℚ
  rain : ℚ
deriving DecidableEq

def COMMUTE_TARGETS : List String := ["06:00", "09:00", "12:00", "15:00", "18:00"]

def MIN_TEMP : ℚ := 5

def MAX_WIND : ℚ := 20

def BAD_WEATHER : List String := ["snow", "thunderstorm", "hail"]

def DANGEROUS_RAIN : List String := ["heavy intensity rain", "very heavy rain", "extreme rain"]

/-! ## Slot Matcher (`match_time_slots`, weather_logic.py lines 40-49) -/

/-- Whether `dt_txt` is a timestamp `datetime.strptime(., "%Y-%m-%d %H:%M:%S")`
accepts: the exact 19-character zero-padded layout with in-range calendar
fields (a malformed timestamp raises `ValueError` in the source). -/
def validDtTxt (s : String) : Bool :=
  match s.toList with
  | [y1, y2, y3, y4, '-', m1, m2, '-', d1, d2, ' ', h1, h2, ':', n1, n2, ':', s1, s2] =>
    let dig := fun (c : Char) => c.isDigit
    let val2 := fun (a b : Char) => (a.toNat - 48) * 10 + (b.toNat - 48)
    let year := ((y1.toNat - 48) * 10 + (y2.toNat - 48)) * 100 + val2 y3 y4
    let month := val2 m1 m2
    let day := val2 d1 d2
    let leap := year % 4 = 0 && (year % 100 != 0 || year % 400 = 0)
    let dim : Nat :=
      if month = 2 then (if leap then 29 else 28)
      else if month = 4 || month = 6 || month = 9 || month = 11 then 30
      else 31
    dig y1 && dig y2 && dig y3 && dig y4 && dig m1 && dig m2 && dig d1 && dig d2 &&
    dig h1 && dig h2 && dig n1 && dig n2 && dig s1 && dig s2 &&
    decide (1 ≤ year) && decide (1 ≤ month) && decide (month ≤ 12) &&
    decide (1 ≤ day) && decide (day ≤ dim) &&
    decide (val2 h1 h2 ≤ 23) && decide (val2 n1 n2 ≤ 59) && decide (val2 s1 s2 ≤ 59)
  | _ => false

/-- `datetime.strptime(time_str, "%Y-%m-%d %H:%M:%S").strftime("%H:%M")`:
on a `validDtTxt` timestamp this is exactly characters 11-15. -/
def timeOnly (dt : String) : String := String.mk ((dt.toList.drop 11).take 5)

/-- Insertion into a Python `dict` viewed as an association list:
overwriting an existing key keeps its position, a new key is appended. -/
def dictInsert (k : String) (v : α) : List (String × α) → List (String × α)
  | [] => [(k, v)]
  | (k', v') :: rest => if k' = k then (k, v) :: rest else (k', v') :: dictInsert k v rest

/-- The loop body of `match_time_slots`: record the entry under its
time-of-day when that is one of the targets. -/
def matchStep (target_times : List String) (results : List (String × RawForecastEntry))
    (entry : RawForecastEntry) : List (String × RawForecastEntry) :=
  let time_only := timeOnly entry.dt_txt
  if target_times.contains time_only then dictInsert time_only entry results
  else results

/-- `match_time_slots`: walk the forecast in order and record each entry
whose time-of-day is a target under that label, later entries
overwriting earlier ones. -/
def match_time_slots (forecast : List RawForecastEntry) (target_times : List String) :
    List (String × RawForecastEntry) :=
  forecast.foldl (matchStep target_times) []

/-! ## Forecast Summarizer (`simplify_forecast` / `summarize_forecast`,
weather_logic.py lines 52-64) -/

/-- `simplify_forecast`; `none` models the `IndexError` of `weather[0]`
on an entry whose `weather` list is empty. -/
def simplify_forecast (entry : RawForecastEntry) : Option SummaryRecord :=
  entry.weather.head?.map (fun w =>
    ⟨w, entry.main_temp, entry.wind_speed,
     entry.visibility?.getD 10000, entry.rain3h?.getD 0⟩)

/-- `summarize_forecast`: the dict comprehension keeps the slots' order. -/
def summarize_forecast (slots : List (String × RawForecastEntry)) :
    Option (List (String × SummaryRecord)) :=
  slots.mapM (fun p => (simplify_forecast p.2).map (fun r => (p.1, r)))

/-! ## Safety Assessor (`assess_weather_conditions`, weather_logic.py
lines 67-95) -/

/-- Python substring membership `sub in l` on character lists. -/
def containsSub (sub : List Char) : List Char → Bool
  | [] => sub.isEmpty
  | c :: rest => sub.isPrefixOf (c :: rest) || containsSub sub rest

/-- Python `str.lower()`, character by character (the descriptions in
play are ASCII). -/
def pyLower (s : String) : String := String.mk (s.toList.map Char.toLower)

/-- Decimal digits of a natural number (fuel-driven, so that it reduces
inside the kernel). -/
def natDigitsAux : Nat → Nat → List Char
  | 0, _ => []
  | fuel + 1, n =>
    if n < 10 then [Char.ofNat (48 + n)]
    else natDigitsAux fuel (n / 10) ++ [Char.ofNat (48 + n % 10)]

def natStr (n : Nat) : String := String.mk (natDigitsAux (n + 1) n)

def intStr (i : Int) : String :=
  if i < 0 then "-" ++ natStr i.natAbs else natStr i.natAbs

/-- Rendering of a numeric value inside an f-string. -/
def numStr (q : ℚ) : String :=
  if q.den = 1 then intStr q.num else intStr q.num ++ "/" ++ natStr q.den

/-- The per-slot loop body of `assess_weather_conditions`: each triggered
rule appends its reason and forces the running flag to `false`. -/
def assessStep (acc : Bool × List String) (p : String × SummaryRecord) :
    Bool × List String :=
  let time := p.1
  let data := p.2
  let weather := pyLower data.description
  let acc1 :=
    if data.temp < MIN_TEMP then
      (false, acc.2 ++ [time ++ ": Temperature too low (" ++ numStr data.temp ++ "¬∞C)"])
    else acc
  let acc2 :=
    if data.wind > MAX_WIND then
      (false, acc1.2 ++ [time ++ ": Wind speed too high (" ++ numStr data.wind ++ " m/s)"])
    else acc1
  let acc3 :=
    if (BAD_WEATHER ++ DANGEROUS_RAIN).any (fun bad => containsSub bad.toList weather.toList) then
      (false, acc2.2 ++ [time ++ ": Dangerous weather - " ++ weather])
    else acc2
  let acc4 :=
    if data.visibility < 3000 then
      (false, acc3.2 ++ [time ++ ": Poor visibility (" ++ numStr data.visibility ++ " m)"])
    else acc3
  if data.rain ≥ 2 then
    (false, acc4.2 ++ [time ++ ": Heavy rain (" ++ numStr data.rain ++ " mm)"])
  else acc4

/-- `assess_weather_conditions`: fold the loop body over the summary,
starting from `safe = True, reasons = []`. -/
def assess_weather_conditions (summary : List (String × SummaryRecord)) :
    Bool × List String :=
  summary.foldl assessStep (true, [])

/-! ## The end-to-end run (`main`, weather_logic.py lines 181-214)

The two network collaborators are abstracted: the fetch result is the
`Option`al forecast list it produced (`None` on a `RequestException`),
and the narrative generator's returned text is a parameter (the source's
`ai_generate_summary` always returns some string, falling back to
`"(AI summary failed): ..."` on an API error).  The trace records the
emails sent and how often the slot-matching and text-generation stages
ran; `none` models an uncaught exception. -/

structure RunTrace where
  emails : List (String × String)
  matcherCalls : Nat
  generatorCalls : Nat
deriving DecidableEq

def mainRun (fetchResult : Option (List RawForecastEntry)) (aiResponse : String) :
    Option RunTrace :=
  match fetchResult with
  | none => some ⟨[("Ride Assistant Error", "Could not retrieve forecast.")], 0, 0⟩
  | some forecast_data =>
    if forecast_data.isEmpty then
      some ⟨[("Ride Assistant Error", "Could not retrieve forecast.")], 0, 0⟩
    else
      let slots := match_time_slots forecast_data COMMUTE_TARGETS
      if slots.isEmpty then
        some ⟨[("Ride Assistant Error", "No matching forecast slots found.")], 1, 0⟩
      else
        match summarize_forecast slots with
        | none => none
        | some summary =>
          let _assessed := assess_weather_conditions summary
          match extractDecision aiResponse with
          | none => none
          | some (_, subject, body) => some ⟨[(subject, body)], 1, 1⟩

/-! ## Helper definitions for the proofs -/

/-- The suffix of `l` after its last `'\n'` (all of `l` when there is
none); characterises the last segment of `splitSegs`. -/
def afterLastNl (l : List Char) : List Char :=
  (l.reverse.takeWhile (fun c => c != '\n')).reverse

/-- The flag and reasons contributed by a single slot of
`assess_weather_conditions` (the loop body run on a fresh accumulator). -/
def slotOut (p : String × SummaryRecord) : Bool × List String :=
  assessStep (true, []) p

/-- The reason string of the heavy-rain rule. -/
def heavyRainReason (t : String) (d : SummaryRecord) : String :=
  t ++ ": Heavy rain (" ++ numStr d.rain ++ " mm)"

/-- Concrete forecast entries for the slot-matcher witness: two entries at
the `"06:00"` commute time (on consecutive days) and one at a
non-commute time. -/
def entryA : RawForecastEntry := ⟨"2024-05-01 06:00:00", ["clear sky"], 10, 3, none, none⟩

def entryB : RawForecastEntry := ⟨"2024-05-01 07:00:00", ["mist"], 11, 4, none, none⟩

def entryC : RawForecastEntry := ⟨"2024-05-02 06:00:00", ["light rain"], 9, 5, some 8000, some 1⟩

/-- Concrete summary records for the assessor witnesses. -/
def coldRecord : SummaryRecord := ⟨"clear sky", 3, 5, 10000, 0⟩

def mildRecord : SummaryRecord := ⟨"clear sky", 15, 5, 10000, 0⟩

def rainRecord : SummaryRecord := ⟨"scattered clouds", 15, 5, 10000, 2⟩

/-! # Proofs

## takeWhile / dropWhile toolbox -/

theorem takeWhile_append_last {p : Char → Bool} (u : List Char) (a : Char) (ha : p a = false) :
    (u ++ [a]).takeWhile p = u.takeWhile p := by
  induction u with
  | nil => simp [List.takeWhile_cons, ha]
  | cons c u ih => by_cases hc : p c = true <;> simp [List.takeWhile_cons, hc, ih]

theorem takeWhile_append_of_fail {p : Char → Bool} (u v : List Char) (b : Char)
    (hb : b ∈ u) (hbf : p b = false) :
    (u ++ v).takeWhile p = u.takeWhile p := by
  induction u with
  | nil => simp at hb
  | cons c u ih =>
    by_cases hc : p c = true
    · have hbu : b ∈ u := by
        rcases List.mem_cons.mp hb with h | h
        · subst h; rw [hbf] at hc; cases hc
        · exact h
      simp [List.takeWhile_cons, hc, ih hbu]
    · simp [List.takeWhile_cons, hc]

theorem dropWhile_append_all {p : Char → Bool} (u v : List Char) (h : ∀ c ∈ u, p c = true) :
    (u ++ v).dropWhile p = v.dropWhile p := by
  induction u with
  | nil => simp
  | cons c u ih =>
    rw [List.cons_append, List.dropWhile_cons, if_pos (h c (by simp))]
    exact ih (fun d hd => h d (by simp [hd]))

/-! ## afterLastNl lemmas -/

theorem afterLastNl_cons_nl (x : List Char) : afterLastNl ('\n' :: x) = afterLastNl x := by
  unfold afterLastNl
  rw [List.reverse_cons, takeWhile_append_last _ _ (by decide)]

theorem afterLastNl_cons_of_mem (c : Char) (x : List Char) (h : '\n' ∈ x) :
    afterLastNl (c :: x) = afterLastNl x := by
  unfold afterLastNl
  rw [List.reverse_cons,
    takeWhile_append_of_fail _ _ '\n' (List.mem_reverse.mpr h) (by decide)]

theorem afterLastNl_of_not_mem (x : List Char) (h : '\n' ∉ x) : afterLastNl x = x := by
  unfold afterLastNl
  rw [List.takeWhile_eq_self_iff.mpr, List.reverse_reverse]
  intro c hc
  have hcne : c ≠ '\n' := by rintro rfl; exact h (List.mem_reverse.mp hc)
  simpa using hcne

/-! ## normNlAux lemmas -/

theorem normNlAux_cons_nl_false (l : List Char) :
    normNlAux false ('\n' :: l) = '\n' :: normNlAux false l := rfl

theorem normNlAux_cons_nl_true (l : List Char) :
    normNlAux true ('\n' :: l) = normNlAux false l := rfl

theorem normNlAux_cons_cr (b : Bool) (l : List Char) :
    normNlAux b ('\r' :: l) = '\n' :: normNlAux true l := by
  cases b <;> rfl

theorem normNlAux_cons_boundary (b : Bool) (c : Char) (l : List Char)
    (h1 : c ≠ '\n') (h2 : c ≠ '\r') (h3 : isLineB c = true) :
    normNlAux b (c :: l) = '\n' :: normNlAux false l := by
  simp only [normNlAux]
  rw [if_neg h1, if_neg h2, h3]
  simp

theorem normNlAux_cons_other (b : Bool) (c : Char) (l : List Char)
    (h1 : c ≠ '\n') (h2 : c ≠ '\r') (h3 : isLineB c = false) :
    normNlAux b (c :: l) = c :: normNlAux false l := by
  simp only [normNlAux]
  rw [if_neg h1, if_neg h2, h3]
  simp

theorem normNlAux_id (l : List Char) (h : ∀ c ∈ l, isLineB c = false) :
    ∀ b, normNlAux b l = l := by
  induction l with
  | nil => intro b; rfl
  | cons c rest ih =>
    intro b
    have hc := h c (by simp)
    have h1 : c ≠ '\n' := by rintro rfl; exact absurd hc (by decide)
    have h2 : c ≠ '\r' := by rintro rfl; exact absurd hc (by decide)
    rw [normNlAux_cons_other b c rest h1 h2 hc,
      ih (fun d hd => h d (by simp [hd])) false]

theorem nl_mem_normNlAux (t : List Char) (l : List Char) :
    '\n' ∈ normNlAux false (l ++ '\n' :: t) := by
  induction l with
  | nil => rw [List.nil_append, normNlAux_cons_nl_false]; exact List.mem_cons_self _ _
  | cons c rest ih =>
    rw [List.cons_append]
    by_cases h1 : c = '\n'
    · subst h1; rw [normNlAux_cons_nl_false]; exact List.mem_cons_self _ _
    · by_cases h2 : c = '\r'
      · subst h2; rw [normNlAux_cons_cr]; exact List.mem_cons_self _ _
      · by_cases h3 : isLineB c = true
        · rw [normNlAux_cons_boundary false c _ h1 h2 h3]; exact List.mem_cons_self _ _
        · have h3f : isLineB c = false := by revert h3; cases isLineB c <;> simp
          rw [normNlAux_cons_other false c _ h1 h2 h3f]
          exact List.mem_cons_of_mem _ ih

theorem afterLastNl_normNlAux (t : List Char) (l : List Char) :
    ∀ b, afterLastNl (normNlAux b (l ++ '\n' :: t)) = afterLastNl (normNlAux false t) := by
  induction l with
  | nil =>
    intro b
    cases b
    · rw [List.nil_append, normNlAux_cons_nl_false, afterLastNl_cons_nl]
    · rw [List.nil_append, normNlAux_cons_nl_true]
  | cons c rest ih =>
    intro b
    rw [List.cons_append]
    by_cases h1 : c = '\n'
    · subst h1
      cases b
      · rw [normNlAux_cons_nl_false, afterLastNl_cons_nl]; exact ih false
      · rw [normNlAux_cons_nl_true]; exact ih false
    · by_cases h2 : c = '\r'
      · subst h2
        rw [normNlAux_cons_cr, afterLastNl_cons_nl]
        exact ih true
      · by_cases h3 : isLineB c = true
        · rw [normNlAux_cons_boundary b c _ h1 h2 h3, afterLastNl_cons_nl]
          exact ih false
        · have h3f : isLineB c = false := by revert h3; cases isLineB c <;> simp
          rw [normNlAux_cons_other b c _ h1 h2 h3f,
            afterLastNl_cons_of_mem _ _ (nl_mem_normNlAux t rest)]
          exact ih false

/-! ## splitSegs lemmas -/

theorem splitSegs_cons_nl (rest : List Char) :
    splitSegs ('\n' :: rest) = [] :: splitSegs rest := rfl

theorem splitSegs_cons_other (c : Char) (rest : List Char) (hc : c ≠ '\n') :
    splitSegs (c :: rest) =
      match splitSegs rest with
      | [] => [[c]]
      | l :: ls => (c :: l) :: ls := by
  simp only [splitSegs]
  rw [if_neg hc]

theorem splitSegs_ne_nil (l : List Char) : splitSegs l ≠ [] := by
  cases l with
  | nil => simp [splitSegs]
  | cons c rest =>
    by_cases h : c = '\n'
    · subst h; rw [splitSegs_cons_nl]; simp
    · rw [splitSegs_cons_other c rest h]
      cases splitSegs rest <;> simp

theorem splitSegs_of_not_mem (l : List Char) (h : '\n' ∉ l) : splitSegs l = [l] := by
  induction l with
  | nil => rfl
  | cons c rest ih =>
    have hc : c ≠ '\n' := by rintro rfl; exact h (by simp)
    have hr := ih (fun hm => h (by simp [hm]))
    rw [splitSegs_cons_other c rest hc, hr]

theorem splitSegs_single (l : List Char) :
    ∀ m, splitSegs l = [m] → '\n' ∉ l ∧ l = m := by
  induction l with
  | nil =>
    intro m h
    simp only [splitSegs] at h
    injection h with h1 _
    subst h1; simp
  | cons c rest ih =>
    intro m h
    by_cases hc : c = '\n'
    · subst hc
      rw [splitSegs_cons_nl] at h
      injection h with _ h2
      exact absurd h2 (splitSegs_ne_nil rest)
    · rw [splitSegs_cons_other c rest hc] at h
      cases hsr : splitSegs rest with
      | nil => exact absurd hsr (splitSegs_ne_nil rest)
      | cons a as =>
        rw [hsr] at h
        cases as with
        | nil =>
          injection h with h1 _
          obtain ⟨hna, hra⟩ := ih a hsr
          constructor
          · intro hm
            rcases List.mem_cons.mp hm with hm1 | hm2
            · exact hc hm1.symm
            · exact hna hm2
          · rw [← h1, hra]
        | cons b bs =>
          injection h with _ h2
          cases h2

theorem getLast?_splitSegs (l : List Char) :
    (splitSegs l).getLast? = some (afterLastNl l) := by
  induction l with
  | nil => rfl
  | cons c rest ih =>
    by_cases hc : c = '\n'
    · subst hc
      rw [splitSegs_cons_nl, afterLastNl_cons_nl]
      cases hsr : splitSegs rest with
      | nil => exact absurd hsr (splitSegs_ne_nil rest)
      | cons a as =>
        rw [hsr] at ih
        rw [List.getLast?_cons_cons, ih]
    · rw [splitSegs_cons_other c rest hc]
      cases hsr : splitSegs rest with
      | nil => exact absurd hsr (splitSegs_ne_nil rest)
      | cons a as =>
        rw [hsr] at ih
        cases as with
        | nil =>
          obtain ⟨hna, hra⟩ := splitSegs_single rest a hsr
          have hnc : '\n' ∉ c :: rest := by
            intro hm
            rcases List.mem_cons.mp hm with hm1 | hm2
            · exact hc hm1.symm
            · exact hna hm2
          rw [afterLastNl_of_not_mem _ hnc]
          simp [← hra]
        | cons b bs =>
          have hmem : '\n' ∈ rest := by
            by_contra hnm
            rw [splitSegs_of_not_mem rest hnm] at hsr
            cases hsr
          rw [afterLastNl_cons_of_mem _ _ hmem, ← ih,
            List.getLast?_cons_cons, List.getLast?_cons_cons]

/-! ## pySplitlinesL last-line lemma -/

theorem pySplitlinesL_getLast (l : List Char)
    (h : afterLastNl (normNlAux false l) ≠ []) :
    (pySplitlinesL l).getLast? = some (afterLastNl (normNlAux false l)) := by
  unfold pySplitlinesL
  simp only []
  rw [getLast?_splitSegs, if_neg, getLast?_splitSegs]
  simp [h]

/-! ## strip lemmas -/

theorem rstrip_of_last (l : List Char) (c : Char)
    (h : l.getLast? = some c) (hc : isPyWs c = false) : rstrip l = l := by
  unfold rstrip
  cases hr : l.reverse with
  | nil =>
    rw [← List.head?_reverse, hr] at h
    cases h
  | cons d rest =>
    have hd : d = c := by
      rw [← List.head?_reverse, hr] at h
      injection h
    subst hd
    rw [List.dropWhile_cons, if_neg (by rw [hc]; simp), ← hr, List.reverse_reverse]

theorem stripL_append_ws (l : List Char) (c : Char) (hc : isPyWs c = true) :
    stripL (l ++ [c]) = stripL l := by
  unfold stripL lstrip rstrip
  by_cases h : (l.dropWhile isPyWs).isEmpty
  · have hl : l.dropWhile isPyWs = [] := by simpa using h
    rw [List.dropWhile_append, if_pos h, hl]
    simp [List.dropWhile_cons, hc]
  · rw [List.dropWhile_append, if_neg h, List.reverse_append]
    simp [List.dropWhile_cons, hc]

/-- The last line of the stripped text `pl ++ '\n' :: tl`, for a final
segment `tl` that contains no line boundary and neither starts nor ends
with whitespace: it is exactly `tl`. -/
theorem stripL_lastline (pl tl : List Char)
    (hne : tl ≠ [])
    (hB : ∀ c ∈ tl, isLineB c = false)
    (hH : ∀ c, tl.head? = some c → isPyWs c = false)
    (hLa : ∀ c, tl.getLast? = some c → isPyWs c = false) :
    (pySplitlinesL (stripL (pl ++ '\n' :: tl))).getLast? = some tl := by
  obtain ⟨cl, hcl⟩ : ∃ cl, tl.getLast? = some cl := by
    cases htl : tl.getLast? with
    | none => exact absurd (List.getLast?_eq_none_iff.mp htl) hne
    | some x => exact ⟨x, rfl⟩
  have hnl : '\n' ∉ tl := by
    intro hm
    have := hB '\n' hm
    exact absurd this (by decide)
  have hafter : afterLastNl tl = tl := afterLastNl_of_not_mem tl hnl
  have hnorm : normNlAux false tl = tl := normNlAux_id tl hB false
  have hfinal1 : (pySplitlinesL tl).getLast? = some tl := by
    rw [pySplitlinesL_getLast tl (by rw [hnorm, hafter]; exact hne), hnorm, hafter]
  have hfinal2 : ∀ u : List Char, (pySplitlinesL (u ++ '\n' :: tl)).getLast? = some tl := by
    intro u
    rw [pySplitlinesL_getLast _
        (by rw [afterLastNl_normNlAux tl u false, hnorm, hafter]; exact hne),
      afterLastNl_normNlAux tl u false, hnorm, hafter]
  unfold stripL lstrip
  by_cases h : (pl.dropWhile isPyWs).isEmpty
  · rw [List.dropWhile_append, if_pos h, List.dropWhile_cons,
      if_pos (by decide : isPyWs '\n' = true)]
    have htl : tl.dropWhile isPyWs = tl := by
      cases tl with
      | nil => rfl
      | cons d rest =>
        rw [List.dropWhile_cons, if_neg (by rw [hH d rfl]; simp)]
    rw [htl, rstrip_of_last tl cl hcl (hLa cl hcl)]
    exact hfinal1
  · rw [List.dropWhile_append, if_neg h]
    have hlast : (pl.dropWhile isPyWs ++ '\n' :: tl).getLast? = some cl := by
      rw [List.getLast?_append]
      have : ('\n' :: tl).getLast? = some cl := by
        cases tl with
        | nil => cases hne rfl
        | cons d rest => rw [List.getLast?_cons_cons]; exact hcl
      rw [this]
      rfl
    rw [rstrip_of_last _ cl hlast (hLa cl hcl)]
    exact hfinal2 _

/-! ## String-level extraction lemmas -/

theorem toList_append (p q : String) : (p ++ q).toList = p.toList ++ q.toList :=
  String.data_append p q

theorem extract_scrutinee (t : String) :
    (pySplitlines (pyStrip t)).getLast? =
      ((pySplitlinesL (stripL t.toList)).getLast?).map (fun l => String.mk l) := by
  unfold pySplitlines
  rw [List.getLast?_map]
  rfl

theorem scrutinee_some (t : String) (tl : List Char)
    (h : (pySplitlinesL (stripL t.toList)).getLast? = some tl) :
    (pySplitlines (pyStrip t)).getLast? = some (String.mk tl) := by
  rw [extract_scrutinee, h]
  rfl

theorem extractDecision_eq_some (t L : String)
    (h : (pySplitlines (pyStrip t)).getLast? = some L) :
    extractDecision t =
      if pyStrip L = "[SAFE]" then
        some (Decision.SAFE, safeSubject, pyStrip (rsplitNlHead t))
      else if pyStrip L = "[NOT SAFE]" then
        some (Decision.NOT_SAFE, notSafeSubject, pyStrip (rsplitNlHead t))
      else some (Decision.UNCLEAR, unclearSubject, t ++ unclearNote) := by
  unfold extractDecision
  rw [h]

theorem extractDecision_eq_none (t : String)
    (h : (pySplitlines (pyStrip t)).getLast? = none) : extractDecision t = none := by
  unfold extractDecision
  rw [h]

theorem rsplitNlHead_concat (p : String) (tl : List Char) (hnl : '\n' ∉ tl)
    (w : String) (hw : w.toList = p.toList ++ '\n' :: tl) :
    rsplitNlHead w = p := by
  unfold rsplitNlHead
  simp only []
  rw [hw, List.reverse_append, List.reverse_cons, List.append_assoc]
  have hmem : '\n' ∈ tl.reverse ++ (['\n'] ++ p.toList.reverse) := by simp
  rw [if_pos (List.elem_iff.mpr hmem)]
  have hall : ∀ c ∈ tl.reverse, (c != '\n') = true := by
    intro c hc
    have : c ≠ '\n' := by
      rintro rfl
      exact hnl (List.mem_reverse.mp hc)
    simpa using this
  rw [dropWhile_append_all _ _ hall]
  rw [show (['\n'] ++ p.toList.reverse) = '\n' :: p.toList.reverse from rfl]
  rw [List.dropWhile_cons, if_neg (by simp)]
  rw [show ('\n' :: p.toList.reverse).drop 1 = p.toList.reverse from rfl]
  rw [List.reverse_reverse]
  rfl

/-! ## Decision Extractor: claims C1, C2, C3, C10 -/

/-- C1 (counterexample): a message whose final line is `"[SAFE] "` (with a
trailing space) is classified `SAFE`, not `UNCLEAR`: both `main`'s outer
`strip()` and the final line's own `strip()` remove the trailing space
before the exact comparison. -/
theorem trailing_space_tag_counterexample :
    extractDecision "ride\n[SAFE] " = some (Decision.SAFE, safeSubject, "ride") := by
  decide

/-- C1 (amended): a wrong-case final line `"[safe]"` still yields
`Decision.UNCLEAR` — the comparison is an exact, case-sensitive string
match — but the final line is whitespace-stripped before the comparison,
so a final line `"[SAFE] "` with a trailing space yields `Decision.SAFE`
(with the tag line removed from the body). -/
theorem tag_wrong_case_and_trailing_space (p : String) :
    extractDecision (p ++ "\n[safe]") =
      some (Decision.UNCLEAR, unclearSubject, (p ++ "\n[safe]") ++ unclearNote) ∧
    extractDecision (p ++ "\n[SAFE] ") =
      some (Decision.SAFE, safeSubject, pyStrip p) := by
  constructor
  · have hw : (p ++ "\n[safe]").toList = p.toList ++ '\n' :: "[safe]".toList := by
      rw [toList_append]
      rfl
    have hsc : (pySplitlines (pyStrip (p ++ "\n[safe]"))).getLast? = some "[safe]" := by
      refine scrutinee_some _ _ ?_
      rw [hw]
      exact stripL_lastline p.toList "[safe]".toList (by decide) (by decide)
        (by intro c h; cases h; decide) (by intro c h; cases h; decide)
    rw [extractDecision_eq_some _ _ hsc, if_neg (by decide), if_neg (by decide)]
  · have hw : (p ++ "\n[SAFE] ").toList = (p.toList ++ '\n' :: "[SAFE]".toList) ++ [' '] := by
      rw [toList_append, List.append_assoc]
      rfl
    have hsc : (pySplitlines (pyStrip (p ++ "\n[SAFE] "))).getLast? = some "[SAFE]" := by
      refine scrutinee_some _ _ ?_
      rw [hw, stripL_append_ws _ _ (by decide)]
      exact stripL_lastline p.toList "[SAFE]".toList (by decide) (by decide)
        (by intro c h; cases h; decide) (by intro c h; cases h; decide)
    rw [extractDecision_eq_some _ _ hsc, if_pos (by decide),
      rsplitNlHead_concat p ("[SAFE] ".toList) (by decide) _ (by rw [toList_append]; rfl)]

/-- C2 (counterexample): on the empty generated text, `splitlines()` is
empty and `[-1]` raises an uncaught `IndexError` (modelled by `none`); no
`UNCLEAR` notification is produced and the exception escapes `main`. -/
theorem empty_message_counterexample : extractDecision "" = none := by
  decide

/-- C2 (amended): whenever the stripped message still has a final line and
that line, trimmed, is neither `"[SAFE]"` nor `"[NOT SAFE]"`, the
extractor yields `Decision.UNCLEAR` with the Unclear subject and the
original text plus the appended caveat note; but when the message is empty
or whitespace-only there is no final line and the `[-1]` index raises an
uncaught `IndexError` (modelled by `none`). -/
theorem unclear_fallback (t : String) :
    (∀ L, decisionLineOf t = some L → L ≠ "[SAFE]" → L ≠ "[NOT SAFE]" →
      extractDecision t = some (Decision.UNCLEAR, unclearSubject, t ++ unclearNote)) ∧
    (decisionLineOf t = none → extractDecision t = none) := by
  constructor
  · intro L h h1 h2
    unfold decisionLineOf at h
    cases hg : (pySplitlines (pyStrip t)).getLast? with
    | none => rw [hg] at h; cases h
    | some L0 =>
      rw [hg] at h
      have hL : pyStrip L0 = L := by
        injection h
      rw [extractDecision_eq_some _ _ hg, if_neg (by rw [hL]; exact h1),
        if_neg (by rw [hL]; exact h2)]
  · intro h
    unfold decisionLineOf at h
    cases hg : (pySplitlines (pyStrip t)).getLast? with
    | none => exact extractDecision_eq_none t hg
    | some L0 => rw [hg] at h; cases h

/-- C2 (witness): the amended theorem applied at the concrete unclear
message `"no tag here"` and at the whitespace-only message `"   "`. -/
theorem unclear_fallback_witness :
    extractDecision "no tag here" =
      some (Decision.UNCLEAR, unclearSubject, "no tag here" ++ unclearNote) ∧
    extractDecision "   " = none :=
  ⟨(unclear_fallback "no tag here").1 "no tag here" (by decide) (by decide) (by decide),
   (unclear_fallback "   ").2 (by decide)⟩

/-- C3 (counterexample): on a message ending in a newline after the tag
line, the decision is `SAFE` but the tag line is *not* removed from the
displayed body: `rsplit("\n", 1)` only cuts at the very last `'\n'`, so
the body still ends in the line `"[SAFE]"`. -/
theorem tag_not_removed_counterexample :
    extractDecision "x\n[SAFE]\n" = some (Decision.SAFE, safeSubject, "x\n[SAFE]") ∧
    (pySplitlines "x\n[SAFE]").getLast? = some "[SAFE]" := by
  decide

/-- C3 (amended): for every message that ends in `"\n[SAFE]"`
(respectively `"\n[NOT SAFE]"`) — the tag being the literal final line,
immediately preceded by a line feed — the extractor yields `Decision.SAFE`
with the Yes subject (resp. `Decision.NOT_SAFE` with the No subject; the
code's subjects carry a garbled-emoji prefix before `"Ride Today: ..."`),
and the displayed body is everything before that last line feed, trimmed,
which excludes the tag line. -/
theorem tag_line_extraction (p : String) :
    extractDecision (p ++ "\n[SAFE]") = some (Decision.SAFE, safeSubject, pyStrip p) ∧
    extractDecision (p ++ "\n[NOT SAFE]") =
      some (Decision.NOT_SAFE, notSafeSubject, pyStrip p) := by
  constructor
  · have hw : (p ++ "\n[SAFE]").toList = p.toList ++ '\n' :: "[SAFE]".toList := by
      rw [toList_append]
      rfl
    have hsc : (pySplitlines (pyStrip (p ++ "\n[SAFE]"))).getLast? = some "[SAFE]" := by
      refine scrutinee_some _ _ ?_
      rw [hw]
      exact stripL_lastline p.toList "[SAFE]".toList (by decide) (by decide)
        (by intro c h; cases h; decide) (by intro c h; cases h; decide)
    rw [extractDecision_eq_some _ _ hsc, if_pos (by decide),
      rsplitNlHead_concat p ("[SAFE]".toList) (by decide) _ hw]
  · have hw : (p ++ "\n[NOT SAFE]").toList = p.toList ++ '\n' :: "[NOT SAFE]".toList := by
      rw [toList_append]
      rfl
    have hsc : (pySplitlines (pyStrip (p ++ "\n[NOT SAFE]"))).getLast? = some "[NOT SAFE]" := by
      refine scrutinee_some _ _ ?_
      rw [hw]
      exact stripL_lastline p.toList "[NOT SAFE]".toList (by decide) (by decide)
        (by intro c h; cases h; decide) (by intro c h; cases h; decide)
    rw [extractDecision_eq_some _ _ hsc, if_neg (by decide), if_pos (by decide),
      rsplitNlHead_concat p ("[NOT SAFE]".toList) (by decide) _ hw]

/-- C10: a one-line message equal to a bare tag is classified, but the
body still equals the tag itself: with no `'\n'` in the message,
`rsplit("\n", 1)[0]` is the whole message. -/
theorem single_line_tag_kept :
    extractDecision "[SAFE]" = some (Decision.SAFE, safeSubject, "[SAFE]") ∧
    extractDecision "[NOT SAFE]" = some (Decision.NOT_SAFE, notSafeSubject, "[NOT SAFE]") := by
  decide

/-! ## Safety Assessor lemmas -/

theorem assessStep_decomp (acc : Bool × List String) (p : String × SummaryRecord) :
    assessStep acc p = (acc.1 && (slotOut p).1, acc.2 ++ (slotOut p).2) := by
  obtain ⟨b, rs⟩ := acc
  unfold slotOut assessStep
  simp only []
  split_ifs <;> simp [List.append_assoc]

theorem foldl_assessStep (s : List (String × SummaryRecord)) :
    ∀ acc : Bool × List String,
      s.foldl assessStep acc =
        (acc.1 && (assess_weather_conditions s).1,
         acc.2 ++ (assess_weather_conditions s).2) := by
  induction s with
  | nil => intro acc; simp [assess_weather_conditions]
  | cons p s ih =>
    intro acc
    have hps : assess_weather_conditions (p :: s) =
        ((slotOut p).1 && (assess_weather_conditions s).1,
         (slotOut p).2 ++ (assess_weather_conditions s).2) := by
      show (p :: s).foldl assessStep (true, []) = _
      rw [List.foldl_cons, ih (assessStep (true, []) p), assessStep_decomp]
      simp
    rw [hps, List.foldl_cons, ih (assessStep acc p), assessStep_decomp]
    simp [Bool.and_assoc, List.append_assoc]

theorem assess_cons (p : String × SummaryRecord) (s : List (String × SummaryRecord)) :
    assess_weather_conditions (p :: s) =
      ((slotOut p).1 && (assess_weather_conditions s).1,
       (slotOut p).2 ++ (assess_weather_conditions s).2) := by
  show (p :: s).foldl assessStep (true, []) = _
  rw [List.foldl_cons, foldl_assessStep s (assessStep (true, []) p), assessStep_decomp]
  simp

theorem slotOut_flag_iff (p : String × SummaryRecord) :
    (slotOut p).1 = false ↔ (slotOut p).2 ≠ [] := by
  obtain ⟨t, d⟩ := p
  unfold slotOut assessStep
  simp only []
  split_ifs <;> simp

theorem slotOut_rain (t : String) (d : SummaryRecord) (h : d.rain ≥ 2) :
    (slotOut (t, d)).1 = false ∧ heavyRainReason t d ∈ (slotOut (t, d)).2 := by
  unfold slotOut assessStep heavyRainReason
  simp only []
  rw [if_pos h]
  exact ⟨rfl, List.mem_append_right _ (List.mem_singleton.mpr rfl)⟩

/-! ## Safety Assessor: claims C4, C6, C7, C8 -/

/-- C4: for every input mapping, the assessor's `safe` flag is `false`
exactly when its reasons list is non-empty. -/
theorem safe_false_iff_reasons (s : List (String × SummaryRecord)) :
    (assess_weather_conditions s).1 = false ↔
      (assess_weather_conditions s).2 ≠ [] := by
  induction s with
  | nil => simp [assess_weather_conditions]
  | cons p s ih =>
    rw [assess_cons]
    constructor
    · intro h
      rcases Bool.and_eq_false_iff.mp h with h1 | h1
      · intro hctr
        exact (slotOut_flag_iff p).mp h1 (List.append_eq_nil.mp hctr).1
      · intro hctr
        exact ih.mp h1 (List.append_eq_nil.mp hctr).2
    · intro h
      by_cases hr : (slotOut p).2 = []
      · by_cases ha : (assess_weather_conditions s).2 = []
        · exact absurd (show (slotOut p).2 ++ (assess_weather_conditions s).2 = [] by
            rw [hr, ha]; rfl) h
        · exact Bool.and_eq_false_iff.mpr (Or.inr (ih.mpr ha))
      · exact Bool.and_eq_false_iff.mpr (Or.inl ((slotOut_flag_iff p).mpr hr))

/-- C6: a slot whose 3-hour rain accumulation is exactly 2.0 mm gets a
heavy-rain reason and makes the verdict unsafe — the source's
`rain >= 2.0` comparison is inclusive at the boundary. -/
theorem rain_boundary_inclusive (s : List (String × SummaryRecord)) (t : String)
    (d : SummaryRecord) (hmem : (t, d) ∈ s) (hrain : d.rain = 2) :
    heavyRainReason t d ∈ (assess_weather_conditions s).2 ∧
    (assess_weather_conditions s).1 = false := by
  have hge : d.rain ≥ 2 := by rw [hrain]
  revert hmem
  induction s with
  | nil => intro hmem; cases hmem
  | cons p s ih =>
    intro hmem
    rw [assess_cons]
    rcases List.mem_cons.mp hmem with h | h
    · obtain ⟨hf, hm⟩ := slotOut_rain t d hge
      subst h
      exact ⟨List.mem_append_left _ hm, by rw [hf]; rfl⟩
    · obtain ⟨hm, hf⟩ := ih h
      exact ⟨List.mem_append_right _ hm, by rw [hf, Bool.and_false]⟩

/-- C6 (witness): the boundary theorem at a single slot whose record has
`rain = 2` exactly. -/
theorem rain_boundary_witness :
    heavyRainReason "12:00" rainRecord ∈
      (assess_weather_conditions [("12:00", rainRecord)]).2 ∧
    (assess_weather_conditions [("12:00", rainRecord)]).1 = false :=
  rain_boundary_inclusive [("12:00", rainRecord)] "12:00" rainRecord (by decide) (by decide)

/-- C7: appending a record under a new slot (Python dict insertion order
appends new keys) never flips `safe` from `false` to `true` and keeps
every existing reason. -/
theorem assessor_monotone (s : List (String × SummaryRecord)) (t : String)
    (d : SummaryRecord) (_hfresh : t ∉ s.map Prod.fst) :
    ((assess_weather_conditions s).1 = false →
      (assess_weather_conditions (s ++ [(t, d)])).1 = false) ∧
    (∀ r ∈ (assess_weather_conditions s).2,
      r ∈ (assess_weather_conditions (s ++ [(t, d)])).2) := by
  have happ : assess_weather_conditions (s ++ [(t, d)]) =
      ((assess_weather_conditions s).1 && (slotOut (t, d)).1,
       (assess_weather_conditions s).2 ++ (slotOut (t, d)).2) := by
    show (s ++ [(t, d)]).foldl assessStep (true, []) = _
    rw [List.foldl_append]
    show assessStep (assess_weather_conditions s) (t, d) = _
    rw [assessStep_decomp]
  constructor
  · intro h
    rw [happ, h]
    rfl
  · intro r hr
    rw [happ]
    exact List.mem_append_left _ hr

/-- C7 (witness): the monotonicity theorem applied to a violating
single-slot input extended by a fresh slot: the verdict stays unsafe and
the existing temperature reason survives. -/
theorem assessor_monotone_witness :
    (assess_weather_conditions ([("06:00", coldRecord)] ++ [("09:00", rainRecord)])).1 = false ∧
    "06:00: Temperature too low (3\u00AC\u221EC)" ∈
      (assess_weather_conditions ([("06:00", coldRecord)] ++ [("09:00", rainRecord)])).2 :=
  ⟨(assessor_monotone [("06:00", coldRecord)] "09:00" rainRecord (by decide)).1 (by decide),
   (assessor_monotone [("06:00", coldRecord)] "09:00" rainRecord (by decide)).2
     "06:00: Temperature too low (3\u00AC\u221EC)" (by decide)⟩

/-- C8: the assessor on the empty mapping returns `safe = true` and no
reasons, without error. -/
theorem assess_empty_vacuous : assess_weather_conditions [] = (true, []) := rfl

/-! ## Slot Matcher lemmas -/

theorem lookup_dictInsert {α : Type} (L K : String) (v : α) (d : List (String × α)) :
    (dictInsert K v d).lookup L = if L = K then some v else d.lookup L := by
  induction d with
  | nil =>
    by_cases h : L = K
    · simp [dictInsert, List.lookup, h]
    · simp [dictInsert, List.lookup, h, beq_eq_false_iff_ne.mpr h]
  | cons kv rest ih =>
    obtain ⟨k1, v1⟩ := kv
    by_cases hk : k1 = K
    · subst hk
      rw [show dictInsert k1 v ((k1, v1) :: rest) = (k1, v) :: rest from by
        simp [dictInsert]]
      by_cases h : L = k1
      · subst h
        simp [List.lookup]
      · simp [List.lookup, h, beq_eq_false_iff_ne.mpr h]
    · rw [show dictInsert K v ((k1, v1) :: rest) = (k1, v1) :: dictInsert K v rest from by
        simp [dictInsert, hk]]
      by_cases h : L = k1
      · subst h
        simp [List.lookup, hk]
      · simp [List.lookup, beq_eq_false_iff_ne.mpr h, h, ih]

theorem matchFold_lookup (targets : List String) (L : String) (hL : L ∈ targets)
    (f : List RawForecastEntry) :
    ∀ d : List (String × RawForecastEntry),
      (f.foldl (matchStep targets) d).lookup L =
        ((f.filter (fun e => timeOnly e.dt_txt == L)).getLast?).or (d.lookup L) := by
  induction f with
  | nil => intro d; simp
  | cons e f ih =>
    intro d
    rw [List.foldl_cons, ih (matchStep targets d e)]
    by_cases pe : timeOnly e.dt_txt = L
    · have hstep : matchStep targets d e = dictInsert L e d := by
        unfold matchStep
        simp only []
        rw [pe, if_pos (List.elem_iff.mpr hL)]
      have hfil : (e :: f).filter (fun e2 => timeOnly e2.dt_txt == L) =
          e :: f.filter (fun e2 => timeOnly e2.dt_txt == L) := by
        rw [List.filter_cons, if_pos (by simp [pe])]
      rw [hstep, hfil, lookup_dictInsert, if_pos rfl]
      cases hlf : (f.filter (fun e2 => timeOnly e2.dt_txt == L)).getLast? with
      | none =>
        rw [List.getLast?_eq_none_iff.mp hlf]
        rfl
      | some x =>
        cases hflist : f.filter (fun e2 => timeOnly e2.dt_txt == L) with
        | nil => rw [hflist] at hlf; cases hlf
        | cons y ys =>
          rw [hflist] at hlf
          rw [List.getLast?_cons_cons, hlf]
          rfl
    · have hfil : (e :: f).filter (fun e2 => timeOnly e2.dt_txt == L) =
          f.filter (fun e2 => timeOnly e2.dt_txt == L) := by
        rw [List.filter_cons, if_neg (by simp [pe])]
      rw [hfil]
      by_cases hc : targets.contains (timeOnly e.dt_txt) = true
      · have hstep : matchStep targets d e = dictInsert (timeOnly e.dt_txt) e d := by
          unfold matchStep
          simp only []
          rw [if_pos hc]
        rw [hstep, lookup_dictInsert, if_neg (fun hcc => pe hcc.symm)]
      · have hstep : matchStep targets d e = d := by
          unfold matchStep
          simp only []
          rw [if_neg hc]
        rw [hstep]

/-! ## Slot Matcher: claim C5 -/

/-- C5: for well-formed timestamps and a label `L` from the target set,
`match_time_slots` has an entry under `L` iff some forecast entry's
time-of-day equals `L`, and the stored entry is the *last* matching one in
input order (dict overwrite-on-duplicate). -/
theorem slot_matcher_last_wins (f : List RawForecastEntry) (targets : List String)
    (L : String) (_hvalid : ∀ e ∈ f, validDtTxt e.dt_txt = true) (hL : L ∈ targets) :
    (((match_time_slots f targets).lookup L).isSome = true ↔
      ∃ e ∈ f, timeOnly e.dt_txt = L) ∧
    (match_time_slots f targets).lookup L =
      (f.filter (fun e => timeOnly e.dt_txt == L)).getLast? := by
  have hmain : (match_time_slots f targets).lookup L =
      (f.filter (fun e => timeOnly e.dt_txt == L)).getLast? := by
    show (f.foldl (matchStep targets) []).lookup L = _
    rw [matchFold_lookup targets L hL f []]
    rw [show (([] : List (String × RawForecastEntry)).lookup L) = none from rfl,
      Option.or_none]
  refine ⟨?_, hmain⟩
  rw [hmain]
  constructor
  · intro h
    by_contra hno
    push_neg at hno
    have hnil : f.filter (fun e => timeOnly e.dt_txt == L) = [] :=
      List.filter_eq_nil_iff.mpr (fun a ha => by simp [hno a ha])
    rw [hnil] at h
    cases h
  · rintro ⟨e, he, hte⟩
    have hmem : e ∈ f.filter (fun e2 => timeOnly e2.dt_txt == L) :=
      List.mem_filter.mpr ⟨he, by simp [hte]⟩
    have hne : f.filter (fun e2 => timeOnly e2.dt_txt == L) ≠ [] := by
      intro hc
      rw [hc] at hmem
      cases hmem
    exact List.getLast?_isSome.mpr hne

/-- C5 (witness): the matcher theorem on a concrete forecast that has two
entries at the `"06:00"` commute time and one at a non-target time: the
label is present and the stored entry is the last matching one. -/
theorem slot_matcher_last_wins_witness :
    ((match_time_slots [entryA, entryB, entryC] COMMUTE_TARGETS).lookup "06:00").isSome = true ∧
    (match_time_slots [entryA, entryB, entryC] COMMUTE_TARGETS).lookup "06:00" =
      ([entryA, entryB, entryC].filter (fun e => timeOnly e.dt_txt == "06:00")).getLast? :=
  ⟨(slot_matcher_last_wins [entryA, entryB, entryC] COMMUTE_TARGETS "06:00"
      (by decide) (by decide)).1.mpr ⟨entryC, by decide, by decide⟩,
   (slot_matcher_last_wins [entryA, entryB, entryC] COMMUTE_TARGETS "06:00"
      (by decide) (by decide)).2⟩

/-! ## End-to-end run: claim C9 -/

/-- C9: when the forecast fetch fails (`None`), the run sends exactly one
notification — subject "Ride Assistant Error", body
"Could not retrieve forecast." — performs zero calls to the slot-matching
and text-generation stages, and returns normally. -/
theorem fetch_failure_single_email (aiResponse : String) :
    mainRun none aiResponse =
      some ⟨[("Ride Assistant Error", "Could not retrieve forecast.")], 0, 0⟩ := rfl

end RideOrNot
